import Mathlib

/-!
Shallow embedding of the cnosdb storage-core sources
(`common/models/src/schema.rs` and `tskv/src/kvcore.rs`) in Lean 4,
together with theorems settling the specification claims about them.

Rust `HashMap`s are embedded as association lists whose keys stay unique
(`alistInsert` replaces in place), `Vec`s as `List`s, `u32`/`u64` counters
as `Nat` (the claims never exercise wrap-around of these counters),
and `i64` arithmetic as `Int` with explicit saturation / overflow checks
at the 64-bit bounds where the source checks them.
-/

namespace CnosDB

/-! ## Association lists standing for Rust `HashMap` -/

/-- Lookup in an association list (Rust `HashMap::get`). -/
def alistGet {α β : Type} [DecidableEq α] (l : List (α × β)) (k : α) : Option β :=
  (l.find? (fun p => decide (p.1 = k))).map (fun p => p.2)

/-- Rust `HashMap::contains_key`. -/
def alistContains {α β : Type} [DecidableEq α] (l : List (α × β)) (k : α) : Bool :=
  (alistGet l k).isSome

/-- Rust `HashMap::insert`: replace the value of an existing key in place,
otherwise append the new binding. -/
def alistInsert {α β : Type} [DecidableEq α] (l : List (α × β)) (k : α) (v : β) :
    List (α × β) :=
  if alistContains l k then
    l.map (fun p => if p.1 = k then (k, v) else p)
  else
    l ++ [(k, v)]

/-- Rust `HashMap::remove` (dropping every binding of the key). -/
def alistRemove {α β : Type} [DecidableEq α] (l : List (α × β)) (k : α) :
    List (α × β) :=
  l.filter (fun p => decide (¬ p.1 = k))

/-! ## `schema.rs`: column types -/

/-- `datafusion` `TimeUnit`, as used by `ColumnType::Time`. -/
inductive TimeUnit : Type
  | Second
  | Millisecond
  | Microsecond
  | Nanosecond
deriving DecidableEq, Repr

/-- Modelled from the spec: the `codec::Encoding` enum lives outside the
provided sources; only its variants' identities matter here. -/
inductive Encoding : Type
  | Default
  | Null
  | Delta
  | Gzip
deriving DecidableEq, Repr

/-- Modelled from the spec: `gis::data_type::Geometry` lives outside the
provided sources; it carries `srid` and `sub_type` metadata. -/
structure Geometry : Type where
  srid : Int
  sub_type : Nat
deriving DecidableEq, Repr

/-- `ValueType` of a field column (`models::value_type::ValueType`). -/
inductive ValueType : Type
  | Float
  | Integer
  | Unsigned
  | Boolean
  | String
  | Geometry (g : Geometry)
  | Unknown
deriving DecidableEq, Repr

/-- `ColumnType` from `schema.rs`. -/
inductive ColumnType : Type
  | Tag
  | Time (unit : TimeUnit)
  | Field (v : ValueType)
deriving DecidableEq, Repr

namespace ColumnType

/-- `ColumnType::is_tag`. -/
def is_tag : ColumnType → Bool
  | .Tag => true
  | _ => false

/-- `ColumnType::is_time`. -/
def is_time : ColumnType → Bool
  | .Time _ => true
  | _ => false

/-- `ColumnType::is_field`. -/
def is_field : ColumnType → Bool
  | .Field _ => true
  | _ => false

/-- `matches!(self, ColumnType::Field(ValueType::Geometry(..)))`. -/
def is_geometry_field : ColumnType → Bool
  | .Field (.Geometry _) => true
  | _ => false

/-- `matches!(other, ColumnType::Field(ValueType::String))`. -/
def is_string_field : ColumnType → Bool
  | .Field .String => true
  | _ => false

/-- `ColumnType::matches_type` from `schema.rs`:
`self.eq(other) || (self is Field(Geometry) && other is Field(String))`. -/
def matches_type (a b : ColumnType) : Bool :=
  decide (a = b) || (a.is_geometry_field && b.is_string_field)

end ColumnType

/-! ## `schema.rs`: precisions and timestamp conversion -/

/-- `Precision` from `schema.rs`. -/
inductive Precision : Type
  | MS
  | US
  | NS
deriving DecidableEq, Repr

namespace Precision

/-- `impl From<u8> for Precision`: 0, 1, 2 map to MS, US, NS, anything
else to NS. -/
def from_u8 (v : Fin 256) : Precision :=
  match v.val with
  | 0 => .MS
  | 1 => .US
  | 2 => .NS
  | _ => .NS

end Precision

/-- `i64::MAX`. -/
def i64Max : Int := 9223372036854775807

/-- `i64::MIN`. -/
def i64Min : Int := -9223372036854775808

/-- Rust `i64::checked_mul`: `none` exactly when the mathematical product
leaves the 64-bit signed range. -/
def checked_mul (a b : Int) : Option Int :=
  if a * b < i64Min ∨ i64Max < a * b then none else some (a * b)

/-- Rust `i64` division truncates toward zero, i.e. `Int.tdiv`. -/
def i64Div (a b : Int) : Int := a.tdiv b

/-- `timestamp_convert` from `schema.rs`. -/
def timestamp_convert (f t : Precision) (ts : Int) : Option Int :=
  match f, t with
  | .NS, .US | .US, .MS => some (i64Div ts 1000)
  | .MS, .US | .US, .NS => checked_mul ts 1000
  | .NS, .MS => some (i64Div ts 1000000)
  | .MS, .NS => checked_mul ts 1000000
  | _, _ => some ts

/-! ## `schema.rs`: durations -/

/-- Modelled from the spec: the time constants of `models::utils` live
outside the provided sources; they are the standard per-unit counts. -/
def MINUTES_NANOS : Int := 60000000000

def HOUR_NANOS : Int := 3600000000000

def DAY_NANOS : Int := 86400000000000

def MINUTES_MICROS : Int := 60000000

def HOUR_MICROS : Int := 3600000000

def DAY_MICROS : Int := 86400000000

def MINUTES_MILLS : Int := 60000

def HOUR_MILLS : Int := 3600000

def DAY_MILLS : Int := 86400000

/-- Rust `i64::saturating_mul`: clamp the product to the 64-bit signed
range. -/
def saturating_mul (a b : Int) : Int :=
  if a * b < i64Min then i64Min else if i64Max < a * b then i64Max else a * b

/-- Rust `u64 as i64` cast (two's-complement wrap). -/
def u64_as_i64 (n : Nat) : Int :=
  if n % 2 ^ 64 < 2 ^ 63 then ((n % 2 ^ 64 : Nat) : Int)
  else ((n % 2 ^ 64 : Nat) : Int) - 2 ^ 64

/-- `DurationUnit` from `schema.rs`. -/
inductive DurationUnit : Type
  | Minutes
  | Hour
  | Day
  | Inf
deriving DecidableEq, Repr

/-- `Duration` from `schema.rs` (`time_num` is a `u64`). -/
structure Duration : Type where
  time_num : Nat
  unit : DurationUnit
deriving DecidableEq, Repr

namespace Duration

/-- `Duration::new_inf` from `schema.rs`: 100000 days, not a true
infinity. -/
def new_inf : Duration := { time_num := 100000, unit := .Inf }

/-- `Duration::to_nanoseconds`. -/
def to_nanoseconds (d : Duration) : Int :=
  match d.unit with
  | .Minutes => saturating_mul (u64_as_i64 d.time_num) MINUTES_NANOS
  | .Hour => saturating_mul (u64_as_i64 d.time_num) HOUR_NANOS
  | .Day => saturating_mul (u64_as_i64 d.time_num) DAY_NANOS
  | .Inf => i64Max

/-- `Duration::to_microseconds`. -/
def to_microseconds (d : Duration) : Int :=
  match d.unit with
  | .Minutes => saturating_mul (u64_as_i64 d.time_num) MINUTES_MICROS
  | .Hour => saturating_mul (u64_as_i64 d.time_num) HOUR_MICROS
  | .Day => saturating_mul (u64_as_i64 d.time_num) DAY_MICROS
  | .Inf => i64Max

/-- `Duration::to_millisecond`. -/
def to_millisecond (d : Duration) : Int :=
  match d.unit with
  | .Minutes => saturating_mul (u64_as_i64 d.time_num) MINUTES_MILLS
  | .Hour => saturating_mul (u64_as_i64 d.time_num) HOUR_MILLS
  | .Day => saturating_mul (u64_as_i64 d.time_num) DAY_MILLS
  | .Inf => i64Max

/-- `Duration::to_precision`. -/
def to_precision (d : Duration) (pre : Precision) : Int :=
  match pre with
  | .MS => d.to_millisecond
  | .US => d.to_microseconds
  | .NS => d.to_nanoseconds

end Duration

/-! ## `schema.rs`: table schemas -/

/-- `TableColumn` from `schema.rs` (`id` is a `u32`). -/
structure TableColumn : Type where
  id : Nat
  name : String
  column_type : ColumnType
  encoding : Encoding
deriving DecidableEq, Repr

namespace TableColumn

/-- `TableColumn::new_time_column`. -/
def new_time_column (id : Nat) (time_unit : TimeUnit) : TableColumn :=
  { id, name := "time", column_type := .Time time_unit, encoding := .Default }

/-- `TableColumn::new_tag_column`. -/
def new_tag_column (id : Nat) (name : String) : TableColumn :=
  { id, name, column_type := .Tag, encoding := .Default }

end TableColumn

/-- The name-to-index map rebuilt from a column list, as in
`TskvTableSchema::new` and `TskvTableSchema::drop_column`:
`columns.iter().enumerate().map(|(idx, e)| (e.name.clone(), idx)).collect()`. -/
def buildIndex (columns : List TableColumn) : List (String × Nat) :=
  columns.enum.foldl (fun m p => alistInsert m p.2.name p.1) []

/-- `TskvTableSchema` from `schema.rs`. -/
structure TskvTableSchema : Type where
  tenant : String
  db : String
  name : String
  schema_id : Nat
  next_column_id : Nat
  columns : List TableColumn
  columns_index : List (String × Nat)
deriving DecidableEq, Repr

namespace TskvTableSchema

/-- `TskvTableSchema::new`: `schema_id = 0`,
`next_column_id = columns.len()`, index built from the columns. -/
def new (tenant db name : String) (columns : List TableColumn) :
    TskvTableSchema :=
  { tenant, db, name
    schema_id := 0
    next_column_id := columns.length
    columns
    columns_index := buildIndex columns }

/-- `TskvTableSchema::add_column`: `columns_index.entry(name)
.or_insert_with(|| { columns.push(col); columns.len() - 1 });
next_column_id += 1;`. -/
def add_column (s : TskvTableSchema) (col : TableColumn) : TskvTableSchema :=
  let s' :=
    if alistContains s.columns_index col.name then s
    else
      { s with
        columns := s.columns ++ [col]
        columns_index := alistInsert s.columns_index col.name s.columns.length }
  { s' with next_column_id := s'.next_column_id + 1 }

/-- `TskvTableSchema::drop_column`: remove the indexed slot if the name is
present, then rebuild the whole name-to-index map. -/
def drop_column (s : TskvTableSchema) (col_name : String) : TskvTableSchema :=
  let columns :=
    match alistGet s.columns_index col_name with
    | some id => s.columns.eraseIdx id
    | none => s.columns
  { s with columns, columns_index := buildIndex columns }

/-- `TskvTableSchema::change_column`: return unchanged if the name is
absent, else re-key the index entry and overwrite the slot in place. -/
def change_column (s : TskvTableSchema) (col_name : String)
    (new_column : TableColumn) : TskvTableSchema :=
  match alistGet s.columns_index col_name with
  | none => s
  | some id =>
    { s with
      columns_index :=
        alistInsert (alistRemove s.columns_index col_name) new_column.name id
      columns := s.columns.set id new_column }

/-- `TskvTableSchema::contains_column`. -/
def contains_column (s : TskvTableSchema) (column_name : String) : Bool :=
  alistContains s.columns_index column_name

/-- `TskvTableSchema::column_index`. -/
def column_index (s : TskvTableSchema) (name : String) : Option Nat :=
  alistGet s.columns_index name

end TskvTableSchema

/-! ## `kvcore.rs`: the read path

The memcache, TSM and version structures referenced by `kvcore.rs` live
outside the provided sources; their data and read operations are modelled
from the spec (§3-§4.5): a `MemEntry` holds ordered `(timestamp, value)`
cells with a `read_cell(range)` operation, memtables carry a `flushed`
flag, levels hold files whose blocks are keyed by field id.
-/

/-- A `FieldId` is a `u64`. -/
abbrev FieldId := Nat

/-- `TimeRange` of `tseries_family.rs` (outside the provided sources). -/
structure TimeRange : Type where
  min_ts : Int
  max_ts : Int
deriving DecidableEq, Repr

/-- A `(timestamp, value)` cell; values are abstracted to `Int`. -/
structure Cell : Type where
  ts : Int
  val : Int
deriving DecidableEq, Repr

/-- A TSM / memcache data block: a run of cells. -/
structure DataBlock : Type where
  cells : List Cell
deriving DecidableEq, Repr

/-- Modelled from the spec: `MemEntry` of `memcache.rs` holds ordered
cells. -/
structure MemEntry : Type where
  cells : List Cell
deriving DecidableEq, Repr

/-- Modelled from the spec: `MemEntry::read_cell(range)` returns the cells
falling inside the time range, as data blocks. -/
def MemEntry.read_cell (e : MemEntry) (tr : TimeRange) : List DataBlock :=
  let cs := e.cells.filter (fun c => decide (tr.min_ts ≤ c.ts) && decide (c.ts ≤ tr.max_ts))
  if cs.isEmpty then [] else [⟨cs⟩]

/-- Modelled from the spec: `MemCache` of `memcache.rs` carries a
`flushed` flag and a `data_cache: map<FieldId, MemEntry>`. -/
structure MemCache : Type where
  flushed : Bool
  data_cache : List (FieldId × MemEntry)
deriving DecidableEq, Repr

/-- The cache group pinned by a `SuperVersion`:
`{mut, delta_mut, immut[], delta_immut[]}`. -/
structure CacheGroup : Type where
  mut_cache : MemCache
  delta_mut_cache : MemCache
  immut_cache : List MemCache
  delta_immut_cache : List MemCache
deriving DecidableEq, Repr

/-- Modelled from the spec: a TSM file holds blocks keyed by field id. -/
structure ColumnFile : Type where
  file_id : Nat
  blocks : List (FieldId × DataBlock)
deriving DecidableEq, Repr

/-- `LevelInfo` of `tseries_family.rs` (outside the provided sources):
a level number and its files. -/
structure LevelInfo : Type where
  level : Nat
  files : List ColumnFile
deriving DecidableEq, Repr

/-- Modelled from the spec: `LevelInfo::read_column_file` gathers, file by
file, the blocks of the requested field restricted to the time range. -/
def LevelInfo.read_column_file (li : LevelInfo) (_ts_family_id : Nat)
    (field_id : FieldId) (tr : TimeRange) : List DataBlock :=
  li.files.foldl
    (fun acc f =>
      acc ++ (f.blocks.filter (fun p => decide (p.1 = field_id))).map
        (fun p =>
          ⟨p.2.cells.filter
            (fun c => decide (tr.min_ts ≤ c.ts) && decide (c.ts ≤ tr.max_ts))⟩))
    []

/-- `Version`: ordered `levels_info`. -/
structure Version : Type where
  levels_info : List LevelInfo
deriving DecidableEq, Repr

/-- `SuperVersion`: pinned caches plus a version. -/
structure SuperVersion : Type where
  ts_family_id : Nat
  caches : CacheGroup
  version : Version
deriving DecidableEq, Repr

/-- One ts-family as seen by `read_point`: its current super version. -/
structure TsFamily : Type where
  super_version : SuperVersion
deriving DecidableEq, Repr

/-- The `TsKv` state the read path consults: the version set maps database
names to ts-families (`get_tsfamily_by_name`). -/
structure TsKv : Type where
  version_set : List (String × TsFamily)
deriving DecidableEq, Repr

/-- The repeated pattern of `read_point`:
`if let Some(mem_entry) = cache.data_cache.get(&field_id)
 { data.append(&mut mem_entry.read_cell(time_range)); }`. -/
def cacheReadField (c : MemCache) (field_id : FieldId) (tr : TimeRange) :
    List DataBlock :=
  match alistGet c.data_cache field_id with
  | some e => e.read_cell tr
  | none => []

/-- `TsKv::read_point` from `kvcore.rs`. Returns `none` only on the panic
path (`levels_info[0]` when the version has no levels). -/
def TsKv.read_point (t : TsKv) (db : String) (tr : TimeRange)
    (field_id : FieldId) : Option (List DataBlock) :=
  match alistGet t.version_set db with
  | none => some []
  | some tsf =>
    let sv := tsf.super_version
    let d1 := cacheReadField sv.caches.mut_cache field_id tr
    let d2 := cacheReadField sv.caches.delta_mut_cache field_id tr
    let d3 := sv.caches.delta_immut_cache.foldl
      (fun acc c => if c.flushed then acc else acc ++ cacheReadField c field_id tr) []
    let d4 := sv.caches.immut_cache.foldl
      (fun acc c => if c.flushed then acc else acc ++ cacheReadField c field_id tr) []
    let d5 := sv.version.levels_info.foldl
      (fun acc li =>
        if li.level = 0 then acc
        else acc ++ li.read_column_file sv.ts_family_id field_id tr) []
    match sv.version.levels_info.head? with
    | none => none
    | some l0 =>
      some (d1 ++ d2 ++ d3 ++ d4 ++ d5 ++
        l0.read_column_file sv.ts_family_id field_id tr)

/-! ## `kvcore.rs`: the `read` facade -/

/-- Modelled from the spec: `unite_id` of `index::utils` (outside the
provided sources) is a bijective pairing of column id and series id. -/
def unite_id (field_id series_id : Nat) : FieldId :=
  Nat.pair field_id series_id

/-- `MAX_BLOCK_VALUES` (the `kvcore.rs` comment: max block size 1000). -/
def MAX_BLOCK_VALUES : Nat := 1000

/-- Keep the last cell written for each timestamp (last-writer-wins). -/
def dedupCells (l : List Cell) : List Cell :=
  (l.foldl (fun acc c => alistInsert acc c.ts c.val) []).map
    (fun p => ⟨p.1, p.2⟩)

/-- Split a cell run into blocks of at most `n` values. -/
def chunkCells (n : Nat) (l : List Cell) : List DataBlock :=
  if n = 0 then (if l.isEmpty then [] else [⟨l⟩])
  else (List.range ((l.length + n - 1) / n)).map
    (fun i => ⟨(l.drop (i * n)).take n⟩)

/-- Modelled from the spec: `DataBlock::merge_blocks` of `tsm` (outside
the provided sources) merges blocks preserving timestamp order,
deduplicating timestamps last-writer-wins, and splitting the result into
blocks of at most `max_block_size` values. -/
def DataBlock.merge_blocks (blocks : List DataBlock) (max_block_size : Nat) :
    List DataBlock :=
  let cells := blocks.foldl (fun acc b => acc ++ b.cells) []
  chunkCells max_block_size
    (List.insertionSort (fun a b => a.ts ≤ b.ts) (dedupCells cells))

/-- The inner field loop of `TsKv::read`: per field, look up or create the
entry and append the `read_point` result. -/
def readLoopFields (t : TsKv) (db : String) (tr : TimeRange) (sid : Nat) :
    List Nat → List (Nat × List DataBlock) → Option (List (Nat × List DataBlock))
  | [], m => some m
  | f :: fs, m =>
    match t.read_point db tr (unite_id f sid) with
    | none => none
    | some blocks =>
      readLoopFields t db tr sid fs
        (alistInsert m f ((alistGet m f).getD [] ++ blocks))

/-- The outer series loop of `TsKv::read`: per series id, look up or
create the entry and run the field loop on it. -/
def readLoopSids (t : TsKv) (db : String) (tr : TimeRange) (fields : List Nat) :
    List Nat → List (Nat × List (Nat × List DataBlock)) →
      Option (List (Nat × List (Nat × List DataBlock)))
  | [], ans => some ans
  | sid :: rest, ans =>
    match readLoopFields t db tr sid fields ((alistGet ans sid).getD []) with
    | none => none
    | some inner => readLoopSids t db tr fields rest (alistInsert ans sid inner)

/-- The inner merge loop of `TsKv::read`'s second phase: append
`merge_blocks(blocks, MAX_BLOCK_VALUES)` into the final per-field entry. -/
def mergeLoopFields : List (Nat × List DataBlock) → List (Nat × List DataBlock) →
    List (Nat × List DataBlock)
  | [], m => m
  | (f, blocks) :: rest, m =>
    mergeLoopFields rest
      (alistInsert m f
        ((alistGet m f).getD [] ++ DataBlock.merge_blocks blocks MAX_BLOCK_VALUES))

/-- The outer merge loop of `TsKv::read`'s second phase. -/
def mergeLoopSids : List (Nat × List (Nat × List DataBlock)) →
    List (Nat × List (Nat × List DataBlock)) →
      List (Nat × List (Nat × List DataBlock))
  | [], fin => fin
  | (sid, inner) :: rest, fin =>
    mergeLoopSids rest
      (alistInsert fin sid (mergeLoopFields inner ((alistGet fin sid).getD [])))

/-- `TsKv::read` from `kvcore.rs`: gather raw blocks per series and field,
then merge them to `MAX_BLOCK_VALUES`. `none` stands for the panic path
inherited from `read_point`. -/
def TsKv.read (t : TsKv) (db : String) (sids : List Nat) (tr : TimeRange)
    (fields : List Nat) :
    Option (List (Nat × List (Nat × List DataBlock))) :=
  match readLoopSids t db tr fields sids [] with
  | none => none
  | some ans => some (mergeLoopSids ans [])

/-! ## Helper lemmas about the column types -/

theorem is_geometry_field_iff (a : ColumnType) :
    a.is_geometry_field = true ↔ ∃ g, a = .Field (.Geometry g) := by
  cases a with
  | Tag => simp [ColumnType.is_geometry_field]
  | Time u => simp [ColumnType.is_geometry_field]
  | Field v => cases v <;> simp [ColumnType.is_geometry_field]

theorem is_string_field_iff (b : ColumnType) :
    b.is_string_field = true ↔ b = .Field .String := by
  cases b with
  | Tag => simp [ColumnType.is_string_field]
  | Time u => simp [ColumnType.is_string_field]
  | Field v => cases v <;> simp [ColumnType.is_string_field]

/-! ## Claim theorems -/

/-- Concrete schema with one column named `a`: the input on which
`add_column` of an existing name fails to be a no-op. -/
def c1Before : TskvTableSchema :=
  TskvTableSchema.new "cnosdb" "public" "t" [⟨0, "a", .Tag, .Default⟩]

/-- The same schema after `add_column` of a second column named `a`. -/
def c1After : TskvTableSchema :=
  c1Before.add_column ⟨1, "a", .Tag, .Default⟩

/-- C1: `add_column` of an already-present name leaves the column list,
the name-to-index map and `schema_id` unchanged, but it still increments
`next_column_id` (from 1 to 2 here), contradicting the claimed no-op. -/
theorem add_column_existing_name_bumps_next_column_id :
    c1After.columns = c1Before.columns ∧
    c1After.columns_index = c1Before.columns_index ∧
    c1After.schema_id = c1Before.schema_id ∧
    c1Before.next_column_id = 1 ∧ c1After.next_column_id = 2 := by
  decide

/-- C2 (amended): `schema_id` is left unchanged by `add_column`,
`drop_column` and `change_column`; none of these operations bumps it. -/
theorem schema_id_unchanged_by_mutations (s : TskvTableSchema)
    (col : TableColumn) (nm : String) (nc : TableColumn) :
    (s.add_column col).schema_id = s.schema_id ∧
    (s.drop_column nm).schema_id = s.schema_id ∧
    (s.change_column nm nc).schema_id = s.schema_id := by
  refine ⟨?_, ?_, ?_⟩
  · simp only [TskvTableSchema.add_column]
    split <;> rfl
  · rfl
  · simp only [TskvTableSchema.change_column]
    split <;> rfl

/-- C2 (counterexample): adding a fresh column genuinely mutates the
schema (the column list changes) yet `schema_id` is not strictly greater
afterwards. -/
theorem schema_id_not_increasing_cex :
    ((TskvTableSchema.new "cnosdb" "public" "t" []).add_column
        ⟨0, "a", .Tag, .Default⟩).columns ≠
      (TskvTableSchema.new "cnosdb" "public" "t" []).columns ∧
    ¬ (TskvTableSchema.new "cnosdb" "public" "t" []).schema_id <
        ((TskvTableSchema.new "cnosdb" "public" "t" []).add_column
          ⟨0, "a", .Tag, .Default⟩).schema_id := by
  decide

/-- C5 (counterexample): `10^13` is below `2^53` in absolute value, yet
converting it from MS to NS overflows `i64` and yields no value. -/
theorem timestamp_convert_ms_ns_overflow_cex :
    |(10000000000000 : Int)| < 2 ^ 53 ∧
    timestamp_convert .MS .NS 10000000000000 = none := by
  constructor
  · decide
  · decide

/-- C5 (amended): for every timestamp with `|ts| ≤ 9223372036854`
(the exact bound below which `ts * 10^6` stays inside `i64`), the MS→NS
conversion yields a value and the NS→MS conversion maps it back to `ts`. -/
theorem timestamp_convert_ms_ns_round_trip (ts : Int)
    (h : |ts| ≤ 9223372036854) :
    ∃ v, timestamp_convert .MS .NS ts = some v ∧
      timestamp_convert .NS .MS v = some ts := by
  obtain ⟨h1, h2⟩ := abs_le.mp h
  refine ⟨ts * 1000000, ?_, ?_⟩
  · show checked_mul ts 1000000 = some (ts * 1000000)
    unfold checked_mul
    rw [if_neg]
    push_neg
    have hl := mul_le_mul_of_nonneg_right h1 (by norm_num : (0 : Int) ≤ 1000000)
    have hr := mul_le_mul_of_nonneg_right h2 (by norm_num : (0 : Int) ≤ 1000000)
    unfold i64Min i64Max
    constructor <;> linarith
  · show some (i64Div (ts * 1000000) 1000000) = some ts
    unfold i64Div
    rw [Int.mul_tdiv_cancel ts (by norm_num)]

/-- C5 (witness for the amended theorem), at `ts = 5`. -/
theorem timestamp_convert_ms_ns_round_trip_witness :
    |(5 : Int)| ≤ 9223372036854 ∧
    ∃ v, timestamp_convert .MS .NS 5 = some v ∧
      timestamp_convert .NS .MS v = some 5 :=
  ⟨by decide, timestamp_convert_ms_ns_round_trip 5 (by decide)⟩

/-- C8: a `Duration` whose unit is `Inf` converts to `i64::MAX` at every
precision, regardless of its count. -/
theorem duration_inf_converts_to_i64_max (n : Nat) (p : Precision) :
    (Duration.mk n .Inf).to_millisecond = i64Max ∧
    (Duration.mk n .Inf).to_microseconds = i64Max ∧
    (Duration.mk n .Inf).to_nanoseconds = i64Max ∧
    (Duration.mk n .Inf).to_precision p = i64Max := by
  refine ⟨rfl, rfl, rfl, ?_⟩
  cases p <;> rfl

/-- C9: `matches_type a b` holds exactly when `a = b` or `a` is a geometry
field and `b` is a string field; in particular a string field never
matches a geometry field. -/
theorem matches_type_characterization (a b : ColumnType) :
    (a.matches_type b = true ↔
      a = b ∨ ((∃ g, a = .Field (.Geometry g)) ∧ b = .Field .String)) ∧
    ∀ g, ColumnType.matches_type (.Field .String) (.Field (.Geometry g)) = false := by
  constructor
  · unfold ColumnType.matches_type
    rw [Bool.or_eq_true, Bool.and_eq_true, decide_eq_true_eq,
      is_geometry_field_iff, is_string_field_iff]
  · intro g
    rfl

/-- C10: decoding a `Precision` from a `u8` is total: 0, 1, 2 map to MS,
US, NS, and every other byte value also maps to NS. -/
theorem precision_from_u8_total :
    Precision.from_u8 0 = .MS ∧ Precision.from_u8 1 = .US ∧
    Precision.from_u8 2 = .NS ∧
    ∀ v : Fin 256, 2 < v.val → Precision.from_u8 v = .NS := by
  refine ⟨rfl, rfl, rfl, ?_⟩
  intro v hv
  obtain ⟨n, hn⟩ := v
  have hv2 : 2 < n := hv
  rcases n with _ | _ | _ | k
  · omega
  · omega
  · omega
  · rfl

/-- C10 (witness), at the byte value 202. -/
theorem precision_from_u8_total_witness :
    2 < (202 : Fin 256).val ∧ Precision.from_u8 202 = .NS :=
  ⟨by decide, precision_from_u8_total.2.2.2 202 (by decide)⟩

/-! ## C6: the `next_column_id` invariant -/

/-- Schemas reachable through `new`, `add_column`, `drop_column` and
`change_column`, with arbitrary arguments (the claim's notion of
reachability). -/
inductive Reachable : TskvTableSchema → Prop
  | ctor (tenant db name : String) (cols : List TableColumn) :
      Reachable (TskvTableSchema.new tenant db name cols)
  | add (s : TskvTableSchema) (col : TableColumn) :
      Reachable s → Reachable (s.add_column col)
  | drop (s : TskvTableSchema) (nm : String) :
      Reachable s → Reachable (s.drop_column nm)
  | change (s : TskvTableSchema) (nm : String) (col : TableColumn) :
      Reachable s → Reachable (s.change_column nm col)

/-- Schemas reachable through the same operations under the id discipline
the callers observe: initial column ids below the column count, and ids of
added or altered columns within the current `next_column_id` allocation. -/
inductive ReachableDisciplined : TskvTableSchema → Prop
  | ctor (tenant db name : String) (cols : List TableColumn)
      (h : ∀ c ∈ cols, c.id < cols.length) :
      ReachableDisciplined (TskvTableSchema.new tenant db name cols)
  | add (s : TskvTableSchema) (col : TableColumn) :
      ReachableDisciplined s → col.id ≤ s.next_column_id →
      ReachableDisciplined (s.add_column col)
  | drop (s : TskvTableSchema) (nm : String) :
      ReachableDisciplined s → ReachableDisciplined (s.drop_column nm)
  | change (s : TskvTableSchema) (nm : String) (col : TableColumn) :
      ReachableDisciplined s → col.id < s.next_column_id →
      ReachableDisciplined (s.change_column nm col)

/-- C6 (counterexample): `new` accepts columns with arbitrary ids, so a
schema reachable exactly as the claim states it (here `new` with a single
column of id 5) violates `next_column_id ≥ max(column.id) + 1`. -/
theorem next_column_id_invariant_cex :
    Reachable (TskvTableSchema.new "cnosdb" "public" "t"
        [⟨5, "a", .Tag, .Default⟩]) ∧
    ¬ ∀ c ∈ (TskvTableSchema.new "cnosdb" "public" "t"
        [⟨5, "a", .Tag, .Default⟩]).columns,
        c.id + 1 ≤ (TskvTableSchema.new "cnosdb" "public" "t"
          [⟨5, "a", .Tag, .Default⟩]).next_column_id := by
  refine ⟨Reachable.ctor _ _ _ _, ?_⟩
  intro h
  have := h ⟨5, "a", .Tag, .Default⟩ (by simp [TskvTableSchema.new])
  simp [TskvTableSchema.new] at this

/-- C6 (amended): under the callers' id discipline, every reachable schema
satisfies `next_column_id ≥ column.id + 1` for each of its columns. -/
theorem next_column_id_invariant (s : TskvTableSchema)
    (hr : ReachableDisciplined s) :
    ∀ c ∈ s.columns, c.id + 1 ≤ s.next_column_id := by
  induction hr with
  | ctor tenant db name cols h =>
    intro c hc
    exact h c hc
  | add s col _ hid ih =>
    intro c hc
    by_cases hct : alistContains s.columns_index col.name = true
    · simp only [TskvTableSchema.add_column, hct, if_true] at hc ⊢
      exact Nat.le_succ_of_le (ih c hc)
    · simp only [TskvTableSchema.add_column, hct, if_false] at hc ⊢
      rcases List.mem_append.mp hc with hc | hc
      · exact Nat.le_succ_of_le (ih c hc)
      · rcases List.mem_singleton.mp hc with rfl
        exact Nat.succ_le_succ hid
  | drop s nm _ ih =>
    intro c hc
    simp only [TskvTableSchema.drop_column] at hc ⊢
    split at hc
    · exact ih c (List.mem_of_mem_eraseIdx hc)
    · exact ih c hc
  | change s nm col _ hid ih =>
    intro c hc
    simp only [TskvTableSchema.change_column] at hc ⊢
    split at hc
    · exact ih c hc
    · rcases List.mem_or_eq_of_mem_set hc with hc | rfl
      · exact ih c hc
      · exact hid

/-- C6 (witness for the amended theorem): a disciplined two-step history
(`new` with a time column, then `add_column` of a tag with the allocated
id) on which the invariant is checked at the added column. -/
theorem next_column_id_invariant_witness :
    (⟨1, "host", .Tag, .Default⟩ : TableColumn).id + 1 ≤
      ((TskvTableSchema.new "cnosdb" "public" "t"
          [TableColumn.new_time_column 0 .Nanosecond]).add_column
        ⟨1, "host", .Tag, .Default⟩).next_column_id :=
  next_column_id_invariant _
    (ReachableDisciplined.add _ _
      (ReachableDisciplined.ctor _ _ _ _ (by decide)) (by decide))
    ⟨1, "host", .Tag, .Default⟩ (by decide)

/-! ## C7: dropping the time column -/

/-- The number of Time columns of a schema. -/
def timeColumnCount (s : TskvTableSchema) : Nat :=
  s.columns.countP (fun c => c.column_type.is_time)

/-- `countP` drops by one when the erased slot holds an element satisfying
the predicate. -/
theorem countP_eraseIdx_of_pos {α : Type} (p : α → Bool) :
    ∀ (l : List α) (i : Nat) (c : α), l[i]? = some c → p c = true →
      (l.eraseIdx i).countP p = l.countP p - 1 := by
  intro l
  induction l with
  | nil => intro i c h _; simp at h
  | cons x xs ih =>
    intro i c h hp
    cases i with
    | zero =>
      simp only [List.getElem?_cons_zero, Option.some.injEq] at h
      subst h
      simp [List.countP_cons, hp]
    | succ j =>
      simp only [List.getElem?_cons_succ] at h
      have hmem : c ∈ xs := List.getElem?_mem h
      have hpos : 0 < xs.countP p := List.countP_pos_iff.mpr ⟨c, hmem, hp⟩
      have := ih j c h hp
      simp only [List.eraseIdx_cons_succ, List.countP_cons, this]
      omega

/-- C7 (counterexample): on a schema whose only column is the time column,
`drop_column "time"` removes it: no Time column is left, refuting the
claim that the time column cannot be dropped. -/
theorem drop_time_column_cex :
    timeColumnCount (TskvTableSchema.new "cnosdb" "public" "t"
        [TableColumn.new_time_column 0 .Nanosecond]) = 1 ∧
    ¬ timeColumnCount ((TskvTableSchema.new "cnosdb" "public" "t"
        [TableColumn.new_time_column 0 .Nanosecond]).drop_column "time") = 1 := by
  decide

/-- C7 (amended): `drop_column` treats the time column like any other:
whenever the index resolves the given name to a slot holding a Time column
and the schema has exactly one Time column, the result has none. -/
theorem drop_column_removes_time_column (s : TskvTableSchema) (nm : String)
    (i : Nat) (c : TableColumn)
    (hidx : alistGet s.columns_index nm = some i)
    (hc : s.columns[i]? = some c)
    (htime : c.column_type.is_time = true)
    (hcount : timeColumnCount s = 1) :
    timeColumnCount (s.drop_column nm) = 0 := by
  unfold timeColumnCount at hcount ⊢
  simp only [TskvTableSchema.drop_column, hidx]
  rw [countP_eraseIdx_of_pos _ s.columns i c hc htime, hcount]

/-- C7 (witness for the amended theorem): the concrete one-time-column
schema, dropped at name `time`. -/
theorem drop_column_removes_time_column_witness :
    timeColumnCount ((TskvTableSchema.new "cnosdb" "public" "t"
        [TableColumn.new_time_column 0 .Nanosecond]).drop_column "time") = 0 :=
  drop_column_removes_time_column _ "time" 0
    (TableColumn.new_time_column 0 .Nanosecond)
    (by decide) (by decide) (by decide) (by decide)

/-! ## C3: the read-path merge order -/

/-- A loop that appends `f c` except on elements satisfying `P` equals the
flat map of `f` over the elements violating `P`, in list order. -/
theorem foldl_skip_eq_flatMap {α β : Type} (P : α → Prop) [DecidablePred P]
    (f : α → List β) :
    ∀ (l : List α) (acc : List β),
      l.foldl (fun acc c => if P c then acc else acc ++ f c) acc =
        acc ++ (l.filter (fun c => decide (¬ P c))).flatMap f := by
  intro l
  induction l with
  | nil => intro acc; simp
  | cons x xs ih =>
    intro acc
    by_cases hx : P x
    · rw [List.foldl_cons, if_pos hx, ih]
      simp only [List.filter_cons]
      rw [if_neg (by simp [hx])]
    · rw [List.foldl_cons, if_neg hx, ih]
      simp only [List.filter_cons]
      rw [if_pos (by simp [hx])]
      simp [List.append_assoc]

/-- C3: with the database resolving to a ts-family whose version has a
level list starting at the delta level (level number 0), `read_point`
returns exactly: the active cache, then the delta active cache, then the
un-flushed delta immutable caches, then the un-flushed immutable caches,
then every level with level number ≥ 1, then the level-0 files once;
flushed caches contribute nothing. -/
theorem read_point_gathers_in_order (t : TsKv) (db : String) (tr : TimeRange)
    (field_id : FieldId) (tsf : TsFamily)
    (hdb : alistGet t.version_set db = some tsf)
    (l0 : LevelInfo) (rest : List LevelInfo)
    (hlv : tsf.super_version.version.levels_info = l0 :: rest)
    (_h0 : l0.level = 0) :
    t.read_point db tr field_id = some (
      cacheReadField tsf.super_version.caches.mut_cache field_id tr ++
      cacheReadField tsf.super_version.caches.delta_mut_cache field_id tr ++
      (tsf.super_version.caches.delta_immut_cache.filter
          (fun c => c.flushed = false)).flatMap
        (fun c => cacheReadField c field_id tr) ++
      (tsf.super_version.caches.immut_cache.filter
          (fun c => c.flushed = false)).flatMap
        (fun c => cacheReadField c field_id tr) ++
      ((l0 :: rest).filter (fun li => 1 ≤ li.level)).flatMap
        (fun li => li.read_column_file tsf.super_version.ts_family_id field_id tr) ++
      l0.read_column_file tsf.super_version.ts_family_id field_id tr) := by
  have h3 := foldl_skip_eq_flatMap (fun c : MemCache => c.flushed = true)
    (fun c => cacheReadField c field_id tr)
    tsf.super_version.caches.delta_immut_cache []
  have h4 := foldl_skip_eq_flatMap (fun c : MemCache => c.flushed = true)
    (fun c => cacheReadField c field_id tr)
    tsf.super_version.caches.immut_cache []
  have h5 := foldl_skip_eq_flatMap (fun li : LevelInfo => li.level = 0)
    (fun li => li.read_column_file tsf.super_version.ts_family_id field_id tr)
    tsf.super_version.version.levels_info []
  have hflush : ∀ l : List MemCache,
      l.filter (fun c => decide (¬ c.flushed = true)) =
        l.filter (fun c => c.flushed = false) := by
    intro l
    apply List.filter_congr
    intro c _
    cases hcf : c.flushed <;> simp [hcf]
  have hlevel :
      tsf.super_version.version.levels_info.filter
          (fun li => decide (¬ li.level = 0)) =
        (l0 :: rest).filter (fun li => 1 ≤ li.level) := by
    rw [hlv]
    apply List.filter_congr
    intro li _
    by_cases hl : li.level = 0 <;> simp [hl, Nat.one_le_iff_ne_zero]
  simp only [TsKv.read_point, hdb]
  rw [h3, h4, h5, hflush, hflush, hlevel, hlv]
  simp [List.append_assoc]

/-- Concrete mem entry used by the C3 witness. -/
def c3Entry : MemEntry := ⟨[⟨1, 10⟩, ⟨5, 50⟩]⟩

/-- Concrete delta level (level number 0) used by the C3 witness. -/
def c3L0 : LevelInfo := ⟨0, [⟨100, [(7, ⟨[⟨2, 20⟩]⟩)]⟩]⟩

/-- Concrete level 1 used by the C3 witness. -/
def c3L1 : LevelInfo := ⟨1, [⟨101, [(7, ⟨[⟨3, 30⟩]⟩)]⟩]⟩

/-- Concrete super version used by the C3 witness: one flushed and one
un-flushed immutable cache, a delta immutable cache, and two levels. -/
def c3SV : SuperVersion :=
  { ts_family_id := 0
    caches :=
      { mut_cache := ⟨false, [(7, c3Entry)]⟩
        delta_mut_cache := ⟨false, []⟩
        immut_cache := [⟨true, [(7, c3Entry)]⟩, ⟨false, [(7, c3Entry)]⟩]
        delta_immut_cache := [⟨false, [(7, ⟨[⟨4, 40⟩]⟩)]⟩] }
    version := ⟨[c3L0, c3L1]⟩ }

/-- Concrete engine state used by the C3 witness. -/
def c3Kv : TsKv := ⟨[("db1", ⟨c3SV⟩)]⟩

/-- C3 (witness): the order theorem applied to the concrete engine state,
all hypotheses discharged by evaluation. -/
theorem read_point_gathers_in_order_witness :
    alistGet c3Kv.version_set "db1" = some ⟨c3SV⟩ ∧
    c3SV.version.levels_info = c3L0 :: [c3L1] ∧ c3L0.level = 0 ∧
    c3Kv.read_point "db1" ⟨0, 100⟩ 7 = some (
      cacheReadField c3SV.caches.mut_cache 7 ⟨0, 100⟩ ++
      cacheReadField c3SV.caches.delta_mut_cache 7 ⟨0, 100⟩ ++
      (c3SV.caches.delta_immut_cache.filter
          (fun c => c.flushed = false)).flatMap
        (fun c => cacheReadField c 7 ⟨0, 100⟩) ++
      (c3SV.caches.immut_cache.filter
          (fun c => c.flushed = false)).flatMap
        (fun c => cacheReadField c 7 ⟨0, 100⟩) ++
      ((c3L0 :: [c3L1]).filter (fun li => 1 ≤ li.level)).flatMap
        (fun li => li.read_column_file c3SV.ts_family_id 7 ⟨0, 100⟩) ++
      c3L0.read_column_file c3SV.ts_family_id 7 ⟨0, 100⟩) :=
  ⟨rfl, rfl, rfl,
    read_point_gathers_in_order c3Kv "db1" ⟨0, 100⟩ 7 ⟨c3SV⟩ rfl c3L0 [c3L1]
      rfl rfl⟩

/-! ## C4: reads over unknown series and fields -/

theorem alistGet_eq_none_contains {α β : Type} [DecidableEq α]
    {m : List (α × β)} {k : α} (h : alistGet m k = none) :
    alistContains m k = false := by
  unfold alistContains
  rw [h]
  rfl

theorem alistInsert_of_get_none {α β : Type} [DecidableEq α]
    {m : List (α × β)} {k : α} (v : β) (h : alistGet m k = none) :
    alistInsert m k v = m ++ [(k, v)] := by
  unfold alistInsert
  rw [alistGet_eq_none_contains h]
  simp

theorem alistGet_append_of_none {α β : Type} [DecidableEq α]
    {m : List (α × β)} (l : List (α × β)) {k : α} (h : alistGet m k = none) :
    alistGet (m ++ l) k = alistGet l k := by
  unfold alistGet at *
  rw [List.find?_append]
  rcases hf : m.find? (fun p => decide (p.1 = k)) with _ | p
  · rw [hf]
    rfl
  · rw [hf] at h
    simp at h

theorem alistGet_singleton_ne {α β : Type} [DecidableEq α]
    {k k' : α} (v : β) (h : ¬ k = k') :
    alistGet [(k, v)] k' = none := by
  unfold alistGet
  simp [List.find?, h]

/-- When `read_point` finds nothing for any requested field, the inner
field loop just materialises an empty entry for every (fresh) field. -/
theorem readLoopFields_all_empty (t : TsKv) (db : String) (tr : TimeRange)
    (sid : Nat) :
    ∀ (fs : List Nat) (m : List (Nat × List DataBlock)),
      (∀ f ∈ fs, t.read_point db tr (unite_id f sid) = some []) →
      fs.Nodup → (∀ f ∈ fs, alistGet m f = none) →
      readLoopFields t db tr sid fs m =
        some (m ++ fs.map (fun f => (f, []))) := by
  intro fs
  induction fs with
  | nil => intro m _ _ _; simp [readLoopFields]
  | cons f fs ih =>
    intro m hrp hnd hfresh
    have hmf : alistGet m f = none := hfresh f (List.mem_cons_self f fs)
    unfold readLoopFields
    rw [hrp f (List.mem_cons_self f fs), hmf]
    simp only [Option.getD_none, List.append_nil]
    rw [alistInsert_of_get_none [] hmf]
    rw [ih (m ++ [(f, [])]) (fun g hg => hrp g (List.mem_cons_of_mem f hg))
      (List.nodup_cons.mp hnd).2 ?_]
    · simp
    · intro g hg
      rw [alistGet_append_of_none _ (hfresh g (List.mem_cons_of_mem f hg))]
      exact alistGet_singleton_ne []
        (fun he => (List.nodup_cons.mp hnd).1 (he ▸ hg))

/-- When `read_point` finds nothing, the outer series loop materialises,
per series, the empty per-field map. -/
theorem readLoopSids_all_empty (t : TsKv) (db : String) (tr : TimeRange)
    (fields : List Nat) (hfnd : fields.Nodup) :
    ∀ (sids : List Nat) (ans : List (Nat × List (Nat × List DataBlock))),
      (∀ s ∈ sids, ∀ f ∈ fields, t.read_point db tr (unite_id f s) = some []) →
      sids.Nodup → (∀ s ∈ sids, alistGet ans s = none) →
      readLoopSids t db tr fields sids ans =
        some (ans ++ sids.map (fun s => (s, fields.map (fun f => (f, []))))) := by
  intro sids
  induction sids with
  | nil => intro ans _ _ _; simp [readLoopSids]
  | cons s ss ih =>
    intro ans hrp hnd hfresh
    have hms : alistGet ans s = none := hfresh s (List.mem_cons_self s ss)
    unfold readLoopSids
    rw [hms]
    simp only [Option.getD_none]
    rw [readLoopFields_all_empty t db tr s fields []
      (hrp s (List.mem_cons_self s ss)) hfnd (fun f _ => rfl)]
    simp only [List.nil_append]
    rw [alistInsert_of_get_none _ hms]
    rw [ih (ans ++ [(s, fields.map (fun f => (f, [])))])
      (fun s' hs' => hrp s' (List.mem_cons_of_mem s hs'))
      (List.nodup_cons.mp hnd).2 ?_]
    · simp
    · intro s' hs'
      rw [alistGet_append_of_none _ (hfresh s' (List.mem_cons_of_mem s hs'))]
      exact alistGet_singleton_ne _
        (fun he => (List.nodup_cons.mp hnd).1 (he ▸ hs'))

/-- `merge_blocks` of no blocks yields no blocks. -/
theorem merge_blocks_nil :
    DataBlock.merge_blocks [] MAX_BLOCK_VALUES = [] := by
  rfl

/-- The second-phase inner loop maps empty raw entries to empty merged
entries. -/
theorem mergeLoopFields_empty_shape :
    ∀ (fs : List Nat) (m : List (Nat × List DataBlock)),
      fs.Nodup → (∀ f ∈ fs, alistGet m f = none) →
      mergeLoopFields (fs.map (fun f => (f, []))) m =
        m ++ fs.map (fun f => (f, [])) := by
  intro fs
  induction fs with
  | nil => intro m _ _; simp [mergeLoopFields]
  | cons f fs ih =>
    intro m hnd hfresh
    have hmf : alistGet m f = none := hfresh f (List.mem_cons_self f fs)
    simp only [List.map_cons, mergeLoopFields]
    rw [hmf]
    simp only [Option.getD_none, merge_blocks_nil, List.append_nil]
    rw [alistInsert_of_get_none [] hmf]
    rw [ih (m ++ [(f, [])]) (List.nodup_cons.mp hnd).2 ?_]
    · simp
    · intro g hg
      rw [alistGet_append_of_none _ (hfresh g (List.mem_cons_of_mem f hg))]
      exact alistGet_singleton_ne []
        (fun he => (List.nodup_cons.mp hnd).1 (he ▸ hg))

/-- The second-phase outer loop maps the empty shape to itself. -/
theorem mergeLoopSids_empty_shape (fields : List Nat) (hfnd : fields.Nodup) :
    ∀ (sids : List Nat) (fin : List (Nat × List (Nat × List DataBlock))),
      sids.Nodup → (∀ s ∈ sids, alistGet fin s = none) →
      mergeLoopSids (sids.map (fun s => (s, fields.map (fun f => (f, []))))) fin =
        fin ++ sids.map (fun s => (s, fields.map (fun f => (f, [])))) := by
  intro sids
  induction sids with
  | nil => intro fin _ _; simp [mergeLoopSids]
  | cons s ss ih =>
    intro fin hnd hfresh
    have hms : alistGet fin s = none := hfresh s (List.mem_cons_self s ss)
    simp only [List.map_cons, mergeLoopSids]
    rw [hms]
    simp only [Option.getD_none]
    rw [mergeLoopFields_empty_shape fields [] hfnd (fun f _ => rfl)]
    simp only [List.nil_append]
    rw [alistInsert_of_get_none _ hms]
    rw [ih (fin ++ [(s, fields.map (fun f => (f, [])))])
      (List.nodup_cons.mp hnd).2 ?_]
    · simp
    · intro s' hs'
      rw [alistGet_append_of_none _ (hfresh s' (List.mem_cons_of_mem s hs'))]
      exact alistGet_singleton_ne _
        (fun he => (List.nodup_cons.mp hnd).1 (he ▸ hs'))

/-- C4 (counterexample): with no ts-family for the database, `read` over
one series and one field is not the empty map: it maps the series to the
field to an empty block list. -/
theorem read_unknown_not_empty_map_cex :
    TsKv.read ⟨[]⟩ "db" [1] ⟨0, 10⟩ [2] = some [(1, [(2, [])])] ∧
    TsKv.read ⟨[]⟩ "db" [1] ⟨0, 10⟩ [2] ≠ some [] := by
  constructor
  · rfl
  · intro h
    simp [TsKv.read, readLoopSids, readLoopFields, TsKv.read_point,
      alistGet, mergeLoopSids, mergeLoopFields, alistInsert,
      alistContains] at h

/-- C4 (amended): whenever `read_point` finds no data for any requested
series/field pair (unknown series or fields; in particular when the
database has no ts-family), `read` returns not the empty map but the map
sending every requested series id to every requested field id to the
empty list of data blocks. -/
theorem read_unknown_returns_empty_entries (t : TsKv) (db : String)
    (sids : List Nat) (tr : TimeRange) (fields : List Nat)
    (hrp : ∀ s ∈ sids, ∀ f ∈ fields, t.read_point db tr (unite_id f s) = some [])
    (hs : sids.Nodup) (hf : fields.Nodup) :
    t.read db sids tr fields =
      some (sids.map (fun s => (s, fields.map (fun f => (f, ([] : List DataBlock)))))) := by
  unfold TsKv.read
  rw [readLoopSids_all_empty t db tr fields hf sids [] hrp hs (fun s _ => rfl)]
  simp only [List.nil_append]
  rw [mergeLoopSids_empty_shape fields hf sids [] hs (fun s _ => rfl)]
  simp

/-- C4 (witness for the amended theorem): the no-ts-family engine, one
series, one field. -/
theorem read_unknown_returns_empty_entries_witness :
    TsKv.read ⟨[]⟩ "mydb" [1] ⟨0, 10⟩ [2] = some [(1, [(2, [])])] :=
  read_unknown_returns_empty_entries ⟨[]⟩ "mydb" [1] ⟨0, 10⟩ [2]
    (by intro s _ f _; rfl) (by decide) (by decide)

end CnosDB
